import Mathlib

/-!
Shallow embedding of the clustering scripts of the Water2 repository:
`clustering.py` (the main script) and `Andrea/clustering.py` (an earlier
variant), together with proofs about the array bookkeeping they perform
(missing-data filtering, flattening to feature vectors, scattering of the
cluster labels back into spatial layout, time averaging, cluster sorting).

Modelling conventions:
* a numpy float is `Val := Option ℚ`; `none` models NaN, `some q` a finite
  value (the data sets hold finite concentrations, so exact rationals are
  faithful for the arithmetic the scripts do: sums, counts and divisions);
* a 4-D numpy array of shape (d0, d1, d2, d3) is a structure holding the
  four extents and a total indexing function; likewise for 3-D arrays;
* the external clustering library (sklearn) is not part of the repository.
  Modelled from the spec: a fitted clusterer's `labels_` attribute is an
  integer label per sample, negative labels meaning noise; we abstract the
  backend as a function `Backend` from the flattened samples to the label
  list, and quantify over it.  The dispatch function `clustering` itself is
  modelled concretely (which estimator is constructed with which
  parameters, and on which data `fit` is called);
* `print` calls are console I/O and are not part of the returned values we
  model; an early `return` (Python's bare `return`, i.e. `None`) is the
  `none` of an `Option` result.
-/

namespace Water

/-- Scalar value of the data arrays: `none` models numpy's NaN. -/
abbrev Val := Option ℚ

/-- A 3-D array: extents `d0, d1, d2` and the indexing function. -/
structure Mat3 where
  d0 : Nat
  d1 : Nat
  d2 : Nat
  val : Nat → Nat → Nat → Val

/-- A 4-D array (time × lat × lon × chemical) as in the scripts. -/
structure Mat4 where
  T : Nat
  La : Nat
  Lo : Nat
  C : Nat
  val : Nat → Nat → Nat → Nat → Val

/-- The slice `matrix[:, :, :, chemical]` of `single_chemical_clustering`. -/
def Mat4.sliceChem (m : Mat4) (chemical : Nat) : Mat3 :=
  ⟨m.T, m.La, m.Lo, fun t i j => m.val t i j chemical⟩

/-- The slice `matrix[timestep, :, :, :]` of `timestep_clustering`. -/
def Mat4.sliceTime (m : Mat4) (timestep : Nat) : Mat3 :=
  ⟨m.La, m.Lo, m.C, fun i j c => m.val timestep i j c⟩

/-- The `(i, j)` pairs visited by the nested `for i ... for j ...` loops. -/
def gridPairs (a b : Nat) : List (Nat × Nat) :=
  (List.range a).flatMap fun i => (List.range b).map fun j => (i, j)

/-- External clustering backend, abstracted: maps the flattened samples to
the integer label list `labels_` (negative labels are noise). -/
abbrev Backend := List (List Val) → List ℤ

/-- The label-scattering loop shared by the clustering entry points:

    labels = np.full(shape, np.nan)
    for i in range(n):
        if clustered_data.labels_[i] >= 0:
            labels[coordinates[i][0], coordinates[i][1]] = clustered_data.labels_[i]

modelled as a fold of pointwise function updates over the all-NaN array. -/
def scatterLabels (coords : List (Nat × Nat)) (lbls : List ℤ) (n : Nat) :
    Nat → Nat → Val :=
  (List.range n).foldl
    (fun acc k =>
      if 0 ≤ lbls.getD k 0 then
        fun x y => if (x, y) = coords.getD k (0, 0) then some ((lbls.getD k 0 : ℚ)) else acc x y
      else acc)
    (fun _ _ => none)

/-! ### single_chemical_clustering (main script `clustering.py`)

The body after the chemical guard works on a 3-D array `data` of shape
(time, lat, lon); `chemical == None` passes `matrix` through unchanged, so
the core below is stated on `Mat3` and covers both branches. -/

/-- Time series `data[:, i, j]` of one grid cell. -/
def scCellVec (m : Mat3) (i j : Nat) : List Val :=
  (List.range m.d0).map fun t => m.val t i j

/-- Missing-data filter `(~np.isnan(data[:, i, j])).all()`. -/
def scRetained (m : Mat3) (p : Nat × Nat) : Bool :=
  (scCellVec m p.1 p.2).all fun v => !v.isNone

/-- The `coordinates` list accumulated by the nested loops. -/
def scCoords (m : Mat3) : List (Nat × Nat) :=
  (gridPairs m.d1 m.d2).filter (scRetained m)

/-- The `straight_data` list before the drop of its first element. -/
def scStraightFull (m : Mat3) : List (List Val) :=
  (scCoords m).map fun p => scCellVec m p.1 p.2

/-- The samples handed to the backend: `straight_data = straight_data[1:]`
(the `coordinates` list is NOT shortened alongside). -/
def scStraight (m : Mat3) : List (List Val) :=
  (scStraightFull m).drop 1

/-- The spatial `labels` array built by `single_chemical_clustering`'s
scatter loop `for i in range(len(straight_data))`. -/
def scLabels (backend : Backend) (m : Mat3) : Nat → Nat → Val :=
  scatterLabels (scCoords m) (backend (scStraight m)) (scStraight m).length

/-- Top-level `single_chemical_clustering` with a non-None `chemical`:
the guard `chemical >= matrix.shape[3]` prints and returns `None`. -/
def single_chemical_clustering (backend : Backend) (m : Mat4) (chemical : Nat) :
    Option (Nat → Nat → Val) :=
  if m.C ≤ chemical then none
  else some (scLabels backend (m.sliceChem chemical))

/-! ### timestep_clustering (main script `clustering.py`)

The body after the timestep guard works on a 3-D array of shape
(lat, lon, chemical); `timestep == None` passes `matrix` through unchanged,
so the core is on `Mat3`. -/

/-- Chemical vector `data[i, j, :]` of one grid cell. -/
def tsCellVec (m : Mat3) (i j : Nat) : List Val :=
  (List.range m.d2).map fun c => m.val i j c

/-- Missing-data filter `(~np.isnan(data[i, j, :])).all()`. -/
def tsRetained (m : Mat3) (p : Nat × Nat) : Bool :=
  (tsCellVec m p.1 p.2).all fun v => !v.isNone

/-- The `coordinates` list of `timestep_clustering`. -/
def tsCoords (m : Mat3) : List (Nat × Nat) :=
  (gridPairs m.d0 m.d1).filter (tsRetained m)

/-- The `straight_data` list of `timestep_clustering` (no drop here). -/
def tsStraight (m : Mat3) : List (List Val) :=
  (tsCoords m).map fun p => tsCellVec m p.1 p.2

/-- The spatial `labels` array built by `timestep_clustering`. -/
def tsLabels (backend : Backend) (m : Mat3) : Nat → Nat → Val :=
  scatterLabels (tsCoords m) (backend (tsStraight m)) (tsStraight m).length

/-- Top-level `timestep_clustering` with a non-None `timestep`: the guard
`timestep >= matrix.shape[0]` prints and returns `None`. -/
def timestep_clustering (backend : Backend) (m : Mat4) (timestep : Nat) :
    Option (Nat → Nat → Val) :=
  if m.T ≤ timestep then none
  else some (tsLabels backend (m.sliceTime timestep))

/-! ### variant `Andrea/clustering.py`

Same structure, except that the missing-data filter is
`min(data[...]) >= 0`, with Python's built-in `min` and float comparison
semantics (any comparison against NaN is False). -/

/-- Python float `<` on our values: any comparison involving NaN is False. -/
def vlt : Val → Val → Bool
  | some a, some b => a < b
  | _, _ => false

/-- Python's built-in `min` over a list of floats: keeps the accumulator
and replaces it when the next element compares `<` against it.  (On an
empty list Python raises ValueError; we return `none`, a case the proofs
never rely on.) -/
def pymin : List Val → Val
  | [] => none
  | v :: vs => vs.foldl (fun acc x => if vlt x acc then x else acc) v

/-- Python float `>= 0`: False for NaN. -/
def vge0 : Val → Bool
  | some q => 0 ≤ q
  | none => false

/-- Filter `min(data[:, i, j]) >= 0` of the variant's
`single_chemical_clustering`. -/
def andreaScRetained (m : Mat3) (p : Nat × Nat) : Bool :=
  vge0 (pymin (scCellVec m p.1 p.2))

/-- The `coordinates` list of the variant's `single_chemical_clustering`. -/
def andreaScCoords (m : Mat3) : List (Nat × Nat) :=
  (gridPairs m.d1 m.d2).filter (andreaScRetained m)

/-- The variant's `straight_data` after its `[1:]` drop. -/
def andreaScStraight (m : Mat3) : List (List Val) :=
  ((andreaScCoords m).map fun p => scCellVec m p.1 p.2).drop 1

/-- The variant's spatial `labels` array for `single_chemical_clustering`. -/
def andreaScLabels (backend : Backend) (m : Mat3) : Nat → Nat → Val :=
  scatterLabels (andreaScCoords m) (backend (andreaScStraight m))
    (andreaScStraight m).length

/-- The variant's top-level `single_chemical_clustering` (non-None chemical). -/
def andrea_single_chemical_clustering (backend : Backend) (m : Mat4)
    (chemical : Nat) : Option (Nat → Nat → Val) :=
  if m.C ≤ chemical then none
  else some (andreaScLabels backend (m.sliceChem chemical))

/-- Filter `min(data[i, j, :]) >= 0` of the variant's `timestep_clustering`. -/
def andreaTsRetained (m : Mat3) (p : Nat × Nat) : Bool :=
  vge0 (pymin (tsCellVec m p.1 p.2))

/-- The `coordinates` list of the variant's `timestep_clustering`. -/
def andreaTsCoords (m : Mat3) : List (Nat × Nat) :=
  (gridPairs m.d0 m.d1).filter (andreaTsRetained m)

/-- The variant's `straight_data` for `timestep_clustering` (no drop). -/
def andreaTsStraight (m : Mat3) : List (List Val) :=
  (andreaTsCoords m).map fun p => tsCellVec m p.1 p.2

/-- The variant's spatial `labels` array for `timestep_clustering`. -/
def andreaTsLabels (backend : Backend) (m : Mat3) : Nat → Nat → Val :=
  scatterLabels (andreaTsCoords m) (backend (andreaTsStraight m))
    (andreaTsStraight m).length

/-- The variant's top-level `timestep_clustering` (non-None timestep). -/
def andrea_timestep_clustering (backend : Backend) (m : Mat4)
    (timestep : Nat) : Option (Nat → Nat → Val) :=
  if m.T ≤ timestep then none
  else some (andreaTsLabels backend (m.sliceTime timestep))

/-! ### timewise_clustering (main script `clustering.py`) -/

/-- Finite (non-NaN) values of a list, in order:
`temp_data[not_nan_indexes]`. -/
def nonNanVals (l : List Val) : List ℚ :=
  l.filterMap id

/-- Mean over the non-NaN entries,
`np.sum(temp_data[not_nan_indexes]) / n_not_nans`: when `n_not_nans = 0`
the numerator is `0.0` and numpy's `0.0 / 0` is NaN, hence `none`. -/
def meanNonNan (l : List Val) : Val :=
  if (nonNanVals l).length = 0 then none
  else some ((nonNanVals l).sum / ((nonNanVals l).length : ℚ))

/-- Indices of the selected chemicals among `range(matrix.shape[3])`. -/
def selChems (C : Nat) (chemicals : List Bool) : List Nat :=
  (List.range C).filter fun c => chemicals.getD c false

/-- Values `matrix[t, :, :, chem]` of one time/chemical slice, in loop
order. -/
def gridSliceVals (m : Mat4) (t chem : Nat) : List Val :=
  (gridPairs m.La m.Lo).map fun p => m.val t p.1 p.2 chem

/-- The `straight_data` of `timewise_clustering` when `location` is given:
`data[time, location[0], location[1], chemicals]` per timestep, with no
NaN filtering at all. -/
def twStraightLoc (m : Mat4) (loc : Nat × Nat) (chemicals : List Bool) :
    List (List Val) :=
  (List.range m.T).map fun t =>
    (selChems m.C chemicals).map fun c => m.val t loc.1 loc.2 c

/-- The `straight_data` of `timewise_clustering` when `location is None`:
per timestep, the mean over the non-NaN grid values of each selected
chemical. -/
def twStraightAvg (m : Mat4) (chemicals : List Bool) : List (List Val) :=
  (List.range m.T).map fun t =>
    (selChems m.C chemicals).map fun c => meanNonNan (gridSliceVals m t c)

/-- The `straight_data` of `timewise_clustering`, by `location` branch. -/
def twStraight (m : Mat4) (location : Option (Nat × Nat))
    (chemicals : List Bool) : List (List Val) :=
  match location with
  | some loc => twStraightLoc m loc chemicals
  | none => twStraightAvg m chemicals

/-- The temporal `labels` array of `timewise_clustering`:
`labels = np.full(len(straight_data), np.nan)` then `labels[i]` is set when
`clustered_data.labels_[i] >= 0`. -/
def twLabels (backend : Backend) (m : Mat4) (location : Option (Nat × Nat))
    (chemicals : List Bool) : List Val :=
  (List.range (twStraight m location chemicals).length).map fun i =>
    if 0 ≤ (backend (twStraight m location chemicals)).getD i 0 then
      some (((backend (twStraight m location chemicals)).getD i 0 : ℚ))
    else none

/-! ### clustering (backend dispatch)

Modelled from the spec: the estimators themselves belong to the external
clustering library (sklearn) and are outside the repository; we record
which estimator is constructed, with which parameters, and on which data
`fit` is called. -/

/-- Estimator constructed by `clustering`, with its parameters. -/
inductive Clusterer where
  | kmeans (n_clusters : Option Nat) (init : String)
  | dbscan (eps : ℚ) (metric : String)
  | agglomerative (n_clusters : Option Nat)
deriving DecidableEq

/-- A fitted estimator: the constructed estimator and the data passed to
`fit`. -/
structure Fitted where
  clusterer : Clusterer
  fittedData : List (List Val)
deriving DecidableEq

/-- The dispatch function `clustering(data, n_clusters, mode, metric,
dbscan_epsilon)`.  An unknown mode leaves `clusterer` unbound in Python
(NameError on return), modelled as `none`. -/
def clustering (data : List (List Val)) (n_clusters : Option Nat)
    (mode : String) (metric : String) (dbscan_epsilon : ℚ) : Option Fitted :=
  if mode = "kmeans" then
    some ⟨Clusterer.kmeans n_clusters "k-means++", data⟩
  else if mode = "dbscan" then
    some ⟨Clusterer.dbscan dbscan_epsilon metric, data⟩
  else if mode = "hierarchical" then
    some ⟨Clusterer.agglomerative n_clusters, data⟩
  else none

/-! ### average_data (main script `clustering.py`) -/

/-- Time window `matrix[t*delta_t : min((t+1)*delta_t, matrix.shape[0]-1),
i, j, chem]` of `average_data`. -/
def avgWindow (m : Mat4) (delta_t t i j chem : Nat) : List Val :=
  (List.range' (t * delta_t) (min ((t + 1) * delta_t) (m.T - 1) - t * delta_t)).map
    fun tt => m.val tt i j chem

/-- The `average_data` function: shape
`(int(T/delta_t), La, Lo, n_chemicals)`, each in-range cell holding the
window mean over the non-NaN entries (`np.nan` when the window has none);
out-of-range indices hold the `np.full(..., np.nan)` placeholder. -/
def average_data (m : Mat4) (chemicals : List Bool) (delta_t : Nat) : Mat4 :=
  ⟨m.T / delta_t, m.La, m.Lo,
    ((List.range chemicals.length).filter fun k => chemicals.getD k false).length,
    fun t i j c =>
      let sel := (List.range chemicals.length).filter fun k => chemicals.getD k false
      if t < m.T / delta_t ∧ i < m.La ∧ j < m.Lo ∧ c < sel.length then
        meanNonNan (avgWindow m delta_t t i j (sel.getD c 0))
      else none⟩

/-! ### sort_clusters (main script `clustering.py`) -/

/-- The `position` computed for cluster `i`: the number of clusters `j`
with `cluster_sizes[i] > cluster_sizes[j]`. -/
def rankOfCluster (cluster_sizes : List Nat) (i : Nat) : Nat :=
  ((List.range cluster_sizes.length).filter
    fun j => cluster_sizes.getD j 0 < cluster_sizes.getD i 0).length

/-- The `new_labels` list of `sort_clusters`. -/
def new_labels (cluster_sizes : List Nat) : List Nat :=
  (List.range cluster_sizes.length).map (rankOfCluster cluster_sizes)

/-- Elementwise effect of one
`labels = np.where(labels == i, new_labels[i] + n_clusters, labels)`
replacement step on a single entry: a float comparison against NaN is
False, so NaN entries pass through. -/
def clusterStep (cluster_sizes : List Nat) (i : Nat) (v : Val) : Val :=
  if v = some ((i : ℚ)) then
    some (((new_labels cluster_sizes).getD i 0 : ℚ) + (cluster_sizes.length : ℚ))
  else v

/-- The `sort_clusters` function: the chain of `np.where` replacement steps
for `i in range(n_clusters)` followed by the elementwise
`labels - n_clusters` (NaN minus a number is NaN). -/
def sort_clusters (labels : List Val) (cluster_sizes : List Nat) : List Val :=
  let replaced := (List.range cluster_sizes.length).foldl
    (fun ls i => ls.map (clusterStep cluster_sizes i)) labels
  replaced.map fun v => v.map fun q => q - (cluster_sizes.length : ℚ)

/-! ### concrete inputs used by witnesses and counterexamples -/

/-- Backend assigning label `i` to the `i`-th sample. -/
def exBackendId : Backend := fun d => (List.range d.length).map fun i => (i : ℤ)

/-- A 3-D input (1 timestep, 1 × 3 grid) whose three cell vectors are the
pairwise-distinct `[0]`, `[1]`, `[2]`. -/
def exM3 : Mat3 := ⟨1, 1, 3, fun _ _ j => some ((j : ℚ))⟩

/-- A small fully finite 4-D input. -/
def exM4 : Mat4 := ⟨2, 1, 1, 1, fun t _ _ _ => some ((t : ℚ))⟩

/-- A 4-D input consisting of a single NaN cell. -/
def exM4nan : Mat4 := ⟨1, 1, 1, 1, fun _ _ _ _ => none⟩

/-- A 3-D input whose only cell vector is `[-1]`: finite but negative. -/
def exM3neg : Mat3 := ⟨1, 1, 1, fun _ _ _ => some (-1)⟩

/-! ### shared helper lemmas -/

theorem mem_gridPairs {a b : Nat} {p : Nat × Nat} :
    p ∈ gridPairs a b ↔ p.1 < a ∧ p.2 < b := by
  cases p with
  | mk i j =>
    simp only [gridPairs, List.mem_flatMap, List.mem_map, List.mem_range]
    constructor
    · rintro ⟨x, hx, y, hy, h⟩
      cases h
      exact ⟨hx, hy⟩
    · rintro ⟨hi, hj⟩
      exact ⟨i, hi, j, hj, rfl⟩

theorem gridPairs_nodup (a b : Nat) : (gridPairs a b).Nodup := by
  refine List.nodup_flatMap.2 ⟨fun i _ => ?_, ?_⟩
  · exact (List.nodup_range b).map (fun x y h => (Prod.ext_iff.1 h).2)
  · refine List.Pairwise.imp ?_ (List.nodup_range a)
    intro i j hij
    simp only [Function.onFun, List.disjoint_left]
    rintro ⟨x, y⟩ hx hy
    simp only [List.mem_map, List.mem_range] at hx hy
    obtain ⟨u, _, hu⟩ := hx
    obtain ⟨v, _, hv⟩ := hy
    cases hu; cases hv
    exact hij rfl

theorem scatterLabels_succ (coords : List (Nat × Nat)) (lbls : List ℤ) (n : Nat) :
    scatterLabels coords lbls (n + 1) =
      if 0 ≤ lbls.getD n 0 then
        fun x y => if (x, y) = coords.getD n (0, 0) then some ((lbls.getD n 0 : ℚ))
          else scatterLabels coords lbls n x y
      else scatterLabels coords lbls n := by
  unfold scatterLabels
  rw [List.range_succ, List.foldl_append]
  rfl

/-- Cells not written by the first `n` scatter steps keep the NaN placeholder. -/
theorem scatterLabels_not_written (coords : List (Nat × Nat)) (lbls : List ℤ)
    (n : Nat) (x y : Nat) (h : ∀ k, k < n → coords.getD k (0, 0) ≠ (x, y)) :
    scatterLabels coords lbls n x y = none := by
  induction n with
  | zero => rfl
  | succ n ih =>
    rw [scatterLabels_succ]
    have hn : coords.getD n (0, 0) ≠ (x, y) := h n (Nat.lt_succ_self n)
    have ih' := ih (fun k hk => h k (Nat.lt_succ_of_lt hk))
    by_cases h0 : 0 ≤ lbls.getD n 0
    · simp only [if_pos h0]
      rw [if_neg (fun hxy => hn hxy.symm)]
      exact ih'
    · simp only [if_neg h0]
      exact ih'

/-- Value of the scattered label array at the `k`-th coordinate, when the
coordinates are pairwise distinct: the backend's `k`-th label if it is
non-negative, the NaN placeholder otherwise. -/
theorem scatterLabels_at_coord (coords : List (Nat × Nat)) (lbls : List ℤ)
    (n : Nat) (hn : n ≤ coords.length) (hd : coords.Nodup)
    (k : Nat) (hk : k < n) :
    scatterLabels coords lbls n (coords.getD k (0, 0)).1 (coords.getD k (0, 0)).2 =
      if 0 ≤ lbls.getD k 0 then some ((lbls.getD k 0 : ℚ)) else none := by
  induction n with
  | zero => exact absurd hk (Nat.not_lt_zero k)
  | succ n ih =>
    have hkc : k < coords.length := Nat.lt_of_lt_of_le hk hn
    have hgetD : ∀ m (hm : m < coords.length), coords.getD m (0, 0) = coords.get ⟨m, hm⟩ := by
      intro m hm
      rw [List.getD_eq_getElem coords (0, 0) hm, List.get_eq_getElem]
    rw [scatterLabels_succ]
    rcases Nat.lt_or_ge k n with hlt | hge
    · -- the `n`-th write is at a different coordinate
      have hne : coords.getD n (0, 0) ≠ coords.getD k (0, 0) := by
        have hnc : n < coords.length := Nat.lt_of_lt_of_le (Nat.lt_succ_self n) hn
        rw [hgetD n hnc, hgetD k hkc]
        intro hEq
        have h2 : n = k := congrArg Fin.val ((hd.get_inj_iff).1 hEq)
        omega
      have ih' := ih (Nat.le_of_succ_le hn) hlt
      by_cases h0 : 0 ≤ lbls.getD n 0
      · simp only [if_pos h0]
        rw [if_neg (by
          intro hxy
          apply hne
          rw [← hxy])]
        exact ih'
      · simp only [if_neg h0]
        exact ih'
    · -- k = n : this is exactly the `n`-th write
      have hkn : k = n := by omega
      subst hkn
      have hprev : scatterLabels coords lbls k (coords.getD k (0, 0)).1 (coords.getD k (0, 0)).2
          = none := by
        apply scatterLabels_not_written
        intro m hm hEq
        have hmc : m < coords.length := Nat.lt_trans hm hkc
        rw [hgetD m hmc, hgetD k hkc] at hEq
        have h2 : m = k := congrArg Fin.val ((hd.get_inj_iff).1 hEq)
        omega
      by_cases h0 : 0 ≤ lbls.getD k 0
      · rw [if_pos h0, if_pos h0]
        exact if_pos rfl
      · simp only [if_neg h0]
        exact hprev

/-- Every cell of the scattered array is NaN or a non-negative label of the
backend. -/
theorem scatterLabels_cases (coords : List (Nat × Nat)) (lbls : List ℤ)
    (n : Nat) (x y : Nat) :
    scatterLabels coords lbls n x y = none ∨
      ∃ k, k < n ∧ 0 ≤ lbls.getD k 0 ∧
        scatterLabels coords lbls n x y = some ((lbls.getD k 0 : ℚ)) := by
  induction n with
  | zero => exact Or.inl rfl
  | succ n ih =>
    rw [scatterLabels_succ]
    by_cases h0 : 0 ≤ lbls.getD n 0
    · simp only [if_pos h0]
      by_cases hxy : (x, y) = coords.getD n (0, 0)
      · rw [if_pos hxy]
        exact Or.inr ⟨n, Nat.lt_succ_self n, h0, rfl⟩
      · rw [if_neg hxy]
        rcases ih with h | ⟨k, hk, hk0, hEq⟩
        · exact Or.inl h
        · exact Or.inr ⟨k, Nat.lt_succ_of_lt hk, hk0, hEq⟩
    · simp only [if_neg h0]
      rcases ih with h | ⟨k, hk, hk0, hEq⟩
      · exact Or.inl h
      · exact Or.inr ⟨k, Nat.lt_succ_of_lt hk, hk0, hEq⟩


theorem getD_range_map {α : Type} (f : Nat → α) (n t : Nat) (d : α) (h : t < n) :
    ((List.range n).map f).getD t d = f t := by
  rw [List.getD_eq_getElem _ _ (by simpa using h)]
  simp

theorem getD_mem {α : Type} (l : List α) (k : Nat) (d : α) (h : k < l.length) :
    l.getD k d ∈ l := by
  rw [List.getD_eq_getElem _ _ h]
  exact List.getElem_mem h

theorem getD_map_fn {α β : Type} (f : α → β) (l : List α) (k : Nat) (d : β)
    (dd : α) (h : k < l.length) :
    (l.map f).getD k d = f (l.getD k dd) := by
  rw [List.getD_eq_getElem _ _ (by simpa using h), List.getElem_map,
    List.getD_eq_getElem _ _ h]

theorem getD_drop_one {α : Type} (l : List α) (k : Nat) (d : α)
    (h : k + 1 < l.length) :
    (l.drop 1).getD k d = l.getD (k + 1) d := by
  rw [List.getD_eq_getElem _ _ (by simp; omega), List.getD_eq_getElem _ _ h,
    List.getElem_drop]
  congr 1
  omega

/-- Number of `True` entries among the selected-chemical indices. -/
theorem sel_length_eq_count (l : List Bool) :
    ((List.range l.length).filter fun k => l.getD k false).length = l.count true := by
  induction l using List.reverseRecOn with
  | nil => rfl
  | append_singleton l b ih =>
    rw [List.length_append, List.length_singleton, List.range_succ, List.filter_append,
      List.length_append, List.count_append]
    have h1 : (List.range l.length).filter (fun k => (l ++ [b]).getD k false)
        = (List.range l.length).filter (fun k => l.getD k false) := by
      apply List.filter_congr
      intro a ha
      rw [List.mem_range] at ha
      rw [List.getD_append]
      exact ha
    have h2 : (l ++ [b]).getD l.length false = b := by
      rw [List.getD_append_right]
      · simp
      · exact Nat.le_refl _
    rw [h1, ih]
    cases b <;> simp [h2]

theorem scRetained_iff (m : Mat3) (i j : Nat) :
    scRetained m (i, j) = true ↔ ∀ t, t < m.d0 → m.val t i j ≠ none := by
  simp only [scRetained, scCellVec, List.all_eq_true, List.mem_map, List.mem_range]
  constructor
  · rintro h t ht hnone
    have := h (m.val t i j) ⟨t, ht, rfl⟩
    rw [hnone] at this
    simp at this
  · rintro h v ⟨t, ht, rfl⟩
    simp only [Bool.not_eq_eq_eq_not, Bool.not_true, Option.isNone_eq_false_iff,
      Option.isSome_iff_ne_none]
    exact h t ht

theorem tsRetained_iff (m : Mat3) (i j : Nat) :
    tsRetained m (i, j) = true ↔ ∀ c, c < m.d2 → m.val i j c ≠ none := by
  simp only [tsRetained, tsCellVec, List.all_eq_true, List.mem_map, List.mem_range]
  constructor
  · rintro h c hc hnone
    have := h (m.val i j c) ⟨c, hc, rfl⟩
    rw [hnone] at this
    simp at this
  · rintro h v ⟨c, hc, rfl⟩
    simp only [Bool.not_eq_eq_eq_not, Bool.not_true, Option.isNone_eq_false_iff,
      Option.isSome_iff_ne_none]
    exact h c hc

theorem mem_scCoords (m : Mat3) (i j : Nat) :
    (i, j) ∈ scCoords m ↔ i < m.d1 ∧ j < m.d2 ∧ ∀ t, t < m.d0 → m.val t i j ≠ none := by
  rw [scCoords, List.mem_filter, mem_gridPairs, scRetained_iff]
  tauto

theorem mem_tsCoords (m : Mat3) (i j : Nat) :
    (i, j) ∈ tsCoords m ↔ i < m.d0 ∧ j < m.d1 ∧ ∀ c, c < m.d2 → m.val i j c ≠ none := by
  rw [tsCoords, List.mem_filter, mem_gridPairs, tsRetained_iff]
  tauto

theorem scCoords_nodup (m : Mat3) : (scCoords m).Nodup :=
  List.Nodup.filter _ (gridPairs_nodup m.d1 m.d2)

theorem tsCoords_nodup (m : Mat3) : (tsCoords m).Nodup :=
  List.Nodup.filter _ (gridPairs_nodup m.d0 m.d1)

theorem scStraight_length (m : Mat3) :
    (scStraight m).length = (scCoords m).length - 1 := by
  simp [scStraight, scStraightFull]

theorem tsStraight_length (m : Mat3) :
    (tsStraight m).length = (tsCoords m).length := by
  simp [tsStraight]

/-! ### claim C7 -/

/-- C7: for every mode in {kmeans, dbscan, hierarchical}, `clustering` fits
exactly the corresponding backend on the passed data and returns the fitted
object: KMeans with k-means++ initialization and the given `n_clusters` for
kmeans, DBSCAN with the given `eps` and `metric` for dbscan,
AgglomerativeClustering with the given `n_clusters` for hierarchical. -/
theorem clustering_dispatch_spec (data : List (List Val)) (n_clusters : Option Nat)
    (metric : String) (eps : ℚ) :
    clustering data n_clusters "kmeans" metric eps =
        some ⟨Clusterer.kmeans n_clusters "k-means++", data⟩ ∧
      clustering data n_clusters "dbscan" metric eps =
        some ⟨Clusterer.dbscan eps metric, data⟩ ∧
      clustering data n_clusters "hierarchical" metric eps =
        some ⟨Clusterer.agglomerative n_clusters, data⟩ := by
  refine ⟨rfl, ?_, ?_⟩ <;> simp [clustering]

/-! ### claim C9 -/

/-- C9: `single_chemical_clustering` called with a chemical index
`>= matrix.shape[3]`, and `timestep_clustering` called with a timestep
`>= matrix.shape[0]`, return `None` without invoking any clustering backend
(the backend is universally quantified, so no call can influence the
result), in both script variants; the guard is total, so no exception is
raised.  The accompanying `print` is console I/O and is not part of the
modelled return value. -/
theorem invalid_index_guard (backend : Backend) (m : Mat4) (c t : Nat)
    (hc : m.C ≤ c) (ht : m.T ≤ t) :
    single_chemical_clustering backend m c = none ∧
      timestep_clustering backend m t = none ∧
      andrea_single_chemical_clustering backend m c = none ∧
      andrea_timestep_clustering backend m t = none := by
  refine ⟨?_, ?_, ?_, ?_⟩ <;>
    simp [single_chemical_clustering, timestep_clustering,
      andrea_single_chemical_clustering, andrea_timestep_clustering, hc, ht]

/-- C9 witness: the guard theorem applied to a concrete 4-D input and the
out-of-range indices 5 and 7. -/
theorem invalid_index_guard_witness :
    exM4.C ≤ 5 ∧ exM4.T ≤ 7 ∧
      single_chemical_clustering exBackendId exM4 5 = none ∧
      timestep_clustering exBackendId exM4 7 = none :=
  ⟨by decide, by decide,
    (invalid_index_guard exBackendId exM4 5 7 (by decide) (by decide)).1,
    (invalid_index_guard exBackendId exM4 5 7 (by decide) (by decide)).2.1⟩

/-! ### claim C5 -/

/-- C5: when `location` is None, `timewise_clustering` builds one flat
feature vector per input timestep, in time order (the `t`-th vector is for
timestep `t`), whose entries are, for each selected chemical in index
order, the arithmetic mean of the non-NaN grid values of that chemical at
that timestep, provided that slice has at least one non-NaN value. -/
theorem timewise_daily_average_vectors (m : Mat4) (chemicals : List Bool) :
    (twStraight m none chemicals).length = m.T ∧
      (∀ t, t < m.T →
        (twStraight m none chemicals).getD t [] =
          (selChems m.C chemicals).map fun c => meanNonNan (gridSliceVals m t c)) ∧
      ∀ t k, t < m.T → k < (selChems m.C chemicals).length →
        nonNanVals (gridSliceVals m t ((selChems m.C chemicals).getD k 0)) ≠ [] →
        ((twStraight m none chemicals).getD t []).getD k none =
          some ((nonNanVals (gridSliceVals m t ((selChems m.C chemicals).getD k 0))).sum /
            ((nonNanVals (gridSliceVals m t ((selChems m.C chemicals).getD k 0))).length : ℚ)) := by
  have hget : ∀ t, t < m.T →
      (twStraight m none chemicals).getD t [] =
        (selChems m.C chemicals).map fun c => meanNonNan (gridSliceVals m t c) := by
    intro t ht
    show (twStraightAvg m chemicals).getD t [] = _
    rw [twStraightAvg, getD_range_map _ _ _ _ ht]
  refine ⟨by simp [twStraight, twStraightAvg], hget, ?_⟩
  intro t k ht hk hnn
  rw [hget t ht, List.getD_eq_getElem _ _ (by simpa using hk), List.getElem_map,
    ← List.getD_eq_getElem (selChems m.C chemicals) 0 hk, meanNonNan,
    if_neg (by rw [List.length_eq_zero]; exact hnn)]

/-- C5 witness: on the concrete input `exM4` (all values finite) with all
chemicals selected, the single entry of the timestep-0 vector is the mean
of the grid slice. -/
theorem timewise_daily_average_vectors_witness :
    0 < exM4.T ∧ 0 < (selChems exM4.C [true]).length ∧
      nonNanVals (gridSliceVals exM4 0 ((selChems exM4.C [true]).getD 0 0)) ≠ [] ∧
      ((twStraight exM4 none [true]).getD 0 []).getD 0 none =
        some ((nonNanVals (gridSliceVals exM4 0 ((selChems exM4.C [true]).getD 0 0))).sum /
          ((nonNanVals (gridSliceVals exM4 0 ((selChems exM4.C [true]).getD 0 0))).length : ℚ)) :=
  ⟨by decide, by decide, by decide,
    (timewise_daily_average_vectors exM4 [true]).2.2 0 0 (by decide) (by decide) (by decide)⟩

/-! ### claim C8 -/

/-- C8: for every input matrix of shape (T, La, Lo, C) and every
`delta_t >= 1`, `average_data` returns an array of shape
(⌊T/delta_t⌋, La, Lo, n) where n is the number of selected chemicals, and
each in-range cell (t, i, j, c) is the arithmetic mean of the non-NaN
entries of `matrix[t*delta_t : min((t+1)*delta_t, T-1), i, j, chem]` for
the c-th selected chemical `chem` when that window has a non-NaN entry,
and NaN otherwise. -/
theorem average_data_spec (m : Mat4) (chemicals : List Bool) (delta_t : Nat)
    (hdt : 1 ≤ delta_t) :
    (average_data m chemicals delta_t).T = m.T / delta_t ∧
      (average_data m chemicals delta_t).La = m.La ∧
      (average_data m chemicals delta_t).Lo = m.Lo ∧
      (average_data m chemicals delta_t).C = chemicals.count true ∧
      ∀ t i j c, t < m.T / delta_t → i < m.La → j < m.Lo →
        c < (average_data m chemicals delta_t).C →
        (average_data m chemicals delta_t).val t i j c =
          (if nonNanVals (avgWindow m delta_t t i j
              (((List.range chemicals.length).filter fun k =>
                chemicals.getD k false).getD c 0)) = []
           then none
           else some ((nonNanVals (avgWindow m delta_t t i j
                (((List.range chemicals.length).filter fun k =>
                  chemicals.getD k false).getD c 0))).sum /
              ((nonNanVals (avgWindow m delta_t t i j
                (((List.range chemicals.length).filter fun k =>
                  chemicals.getD k false).getD c 0))).length : ℚ))) := by
  refine ⟨rfl, rfl, rfl, sel_length_eq_count chemicals, ?_⟩
  intro t i j c ht hi hj hc
  have hc' : c < ((List.range chemicals.length).filter fun k =>
      chemicals.getD k false).length := hc
  show (if t < m.T / delta_t ∧ i < m.La ∧ j < m.Lo ∧ _ then _ else _) = _
  rw [if_pos ⟨ht, hi, hj, hc'⟩, meanNonNan]
  by_cases h : nonNanVals (avgWindow m delta_t t i j
      (((List.range chemicals.length).filter fun k => chemicals.getD k false).getD c 0)) = []
  · rw [if_pos h, if_pos (by rw [List.length_eq_zero]; exact h)]
  · rw [if_neg h, if_neg (by rw [List.length_eq_zero]; exact h)]

/-- C8 witness: `average_data` on the concrete input `exM4` with
`delta_t = 1`, evaluated at the cell (0,0,0,0). -/
theorem average_data_spec_witness :
    1 ≤ 1 ∧ (average_data exM4 [true] 1).T = exM4.T / 1 ∧
      (average_data exM4 [true] 1).C = [true].count true ∧
      (average_data exM4 [true] 1).val 0 0 0 0 =
        (if nonNanVals (avgWindow exM4 1 0 0 0
            (((List.range [true].length).filter fun k => [true].getD k false).getD 0 0)) = []
         then none
         else some ((nonNanVals (avgWindow exM4 1 0 0 0
              (((List.range [true].length).filter fun k => [true].getD k false).getD 0 0))).sum /
            ((nonNanVals (avgWindow exM4 1 0 0 0
              (((List.range [true].length).filter fun k => [true].getD k false).getD 0 0))).length : ℚ))) :=
  ⟨Nat.le_refl 1, (average_data_spec exM4 [true] 1 (by decide)).1,
    (average_data_spec exM4 [true] 1 (by decide)).2.2.2.1,
    (average_data_spec exM4 [true] 1 (by decide)).2.2.2.2 0 0 0 0
      (by decide) (by decide) (by decide) (by decide)⟩

/-! ### claim C2 -/

/-- C2 counterexample: in the variant `Andrea/clustering.py`, the grid cell
(0,0) of `exM3neg` has a fully non-NaN time series (its single value is
-1), yet it is not retained, because the variant's filter is
`min(data[:, i, j]) >= 0`, not a NaN check.  This refutes the claim that
in both script variants a cell is retained iff its vector is all non-NaN. -/
theorem andrea_filter_counterexample :
    (∀ t, t < exM3neg.d0 → exM3neg.val t 0 0 ≠ none) ∧
      (0, 0) ∉ andreaScCoords exM3neg := by
  constructor
  · decide
  · decide

/-- C2 amended: the main script's `single_chemical_clustering` and
`timestep_clustering` retain a grid cell iff every entry of its vector is
non-NaN, with no other criterion; the variant `Andrea/clustering.py`
instead retains a cell iff Python's `min` over its vector compares `>= 0`
(False whenever the minimum is negative, and False for NaN results), which
also excludes fully non-NaN cells holding a negative value. -/
theorem retention_criteria (m : Mat3) (i j : Nat) :
    ((i, j) ∈ scCoords m ↔
        i < m.d1 ∧ j < m.d2 ∧ ∀ t, t < m.d0 → m.val t i j ≠ none) ∧
      ((i, j) ∈ tsCoords m ↔
        i < m.d0 ∧ j < m.d1 ∧ ∀ c, c < m.d2 → m.val i j c ≠ none) ∧
      ((i, j) ∈ andreaScCoords m ↔
        i < m.d1 ∧ j < m.d2 ∧ vge0 (pymin (scCellVec m i j)) = true) ∧
      ((i, j) ∈ andreaTsCoords m ↔
        i < m.d0 ∧ j < m.d1 ∧ vge0 (pymin (tsCellVec m i j)) = true) := by
  refine ⟨mem_scCoords m i j, mem_tsCoords m i j, ?_, ?_⟩
  · rw [andreaScCoords, List.mem_filter, mem_gridPairs, andreaScRetained]
    tauto
  · rw [andreaTsCoords, List.mem_filter, mem_gridPairs, andreaTsRetained]
    tauto

/-- C2 witness: the retention characterizations applied at the concrete
input `exM3`, cell (0,1): retained by the main script's filter (its vector
`[1]` is non-NaN) and by the variant's filter (its minimum is `1 >= 0`). -/
theorem retention_criteria_witness :
    (0, 1) ∈ scCoords exM3 ∧ (0, 1) ∈ andreaScCoords exM3 :=
  ⟨(retention_criteria exM3 0 1).1.2 (by decide),
    (retention_criteria exM3 0 1).2.2.1.2 (by decide)⟩

/-! ### claim C3 -/

/-- C3 counterexample: `timewise_clustering` with `location = (0, 0)` on
the all-NaN input `exM4nan` hands the backend the sample list `[[NaN]]`:
the location branch does no NaN filtering, so not every flat feature
vector handed to the backend is NaN-free. -/
theorem timewise_location_nan_counterexample :
    ¬ (∀ d ∈ twStraight exM4nan (some (0, 0)) [true], ∀ v ∈ d, v ≠ none) := by
  decide

/-- C3 amended: the feature vectors handed to the backend are NaN-free in
`single_chemical_clustering` and `timestep_clustering` (for every input),
and in `timewise_clustering` without a location whenever every selected
chemical has at least one non-NaN grid value at every timestep; with a
location, `timewise_clustering` passes the raw values through unfiltered,
so NaNs can reach the backend. -/
theorem feature_vectors_nan_free (m3 : Mat3) (m : Mat4) (chemicals : List Bool) :
    (∀ d ∈ scStraight m3, ∀ v ∈ d, v ≠ none) ∧
      (∀ d ∈ tsStraight m3, ∀ v ∈ d, v ≠ none) ∧
      ((∀ t < m.T, ∀ c ∈ selChems m.C chemicals,
          nonNanVals (gridSliceVals m t c) ≠ []) →
        ∀ d ∈ twStraightAvg m chemicals, ∀ v ∈ d, v ≠ none) := by
  refine ⟨?_, ?_, ?_⟩
  · intro d hd v hv
    have hd' : d ∈ scStraightFull m3 := List.mem_of_mem_drop hd
    rw [scStraightFull, List.mem_map] at hd'
    obtain ⟨p, hp, rfl⟩ := hd'
    obtain ⟨i, j⟩ := p
    rw [mem_scCoords] at hp
    rw [scCellVec, List.mem_map] at hv
    obtain ⟨t, ht, rfl⟩ := hv
    rw [List.mem_range] at ht
    exact hp.2.2 t ht
  · intro d hd v hv
    rw [tsStraight, List.mem_map] at hd
    obtain ⟨p, hp, rfl⟩ := hd
    obtain ⟨i, j⟩ := p
    rw [mem_tsCoords] at hp
    rw [tsCellVec, List.mem_map] at hv
    obtain ⟨c, hc, rfl⟩ := hv
    rw [List.mem_range] at hc
    exact hp.2.2 c hc
  · intro h d hd v hv
    rw [twStraightAvg, List.mem_map] at hd
    obtain ⟨t, ht, rfl⟩ := hd
    rw [List.mem_range] at ht
    rw [List.mem_map] at hv
    obtain ⟨c, hc, rfl⟩ := hv
    have := h t ht c hc
    rw [meanNonNan, if_neg (by rw [List.length_eq_zero]; exact this)]
    exact Option.some_ne_none _

/-- C3 witness: the NaN-freeness theorem applied to the concrete inputs
`exM3` and `exM4` with all chemicals selected. -/
theorem feature_vectors_nan_free_witness :
    (∀ t < exM4.T, ∀ c ∈ selChems exM4.C [true],
        nonNanVals (gridSliceVals exM4 t c) ≠ []) ∧
      (∀ d ∈ scStraight exM3, ∀ v ∈ d, v ≠ none) ∧
      (∀ d ∈ twStraightAvg exM4 [true], ∀ v ∈ d, v ≠ none) :=
  ⟨by decide, (feature_vectors_nan_free exM3 exM4 [true]).1,
    (feature_vectors_nan_free exM3 exM4 [true]).2.2 (by decide)⟩

theorem andreaScCoords_nodup (m : Mat3) : (andreaScCoords m).Nodup :=
  List.Nodup.filter _ (gridPairs_nodup m.d1 m.d2)

theorem andreaTsCoords_nodup (m : Mat3) : (andreaTsCoords m).Nodup :=
  List.Nodup.filter _ (gridPairs_nodup m.d0 m.d1)

theorem andreaScStraight_length (m : Mat3) :
    (andreaScStraight m).length = (andreaScCoords m).length - 1 := by
  simp [andreaScStraight]

theorem andreaTsStraight_length (m : Mat3) :
    (andreaTsStraight m).length = (andreaTsCoords m).length := by
  simp [andreaTsStraight]

/-! ### claim C4 -/

/-- C4: for every input matrix and valid timestep, `timestep_clustering`
slices the matrix at that timestep (a None timestep means the matrix
argument is already the slice, the `Mat3` case below); the `k`-th sample
handed to the backend is exactly the per-chemical feature vector of the
`k`-th retained cell, and whenever the backend's label for that sample is
non-negative, the returned spatial labels array holds that label at that
cell's (lat, lon) coordinates.  The same holds in the variant
`Andrea/clustering.py` (whose retention filter differs, but whose scatter
is aligned the same way). -/
theorem timestep_labels_spec (backend : Backend) (m : Mat4) (m3 : Mat3)
    (t k k' : Nat) (ht : t < m.T) (hk : k < (tsStraight m3).length)
    (hk' : k' < (andreaTsStraight m3).length) :
    timestep_clustering backend m t = some (tsLabels backend (m.sliceTime t)) ∧
      ((tsStraight m3).getD k [] =
        tsCellVec m3 ((tsCoords m3).getD k (0, 0)).1 ((tsCoords m3).getD k (0, 0)).2) ∧
      (0 ≤ (backend (tsStraight m3)).getD k 0 →
        tsLabels backend m3 ((tsCoords m3).getD k (0, 0)).1
            ((tsCoords m3).getD k (0, 0)).2 =
          some (((backend (tsStraight m3)).getD k 0 : ℚ))) ∧
      andrea_timestep_clustering backend m t =
        some (andreaTsLabels backend (m.sliceTime t)) ∧
      ((andreaTsStraight m3).getD k' [] =
        tsCellVec m3 ((andreaTsCoords m3).getD k' (0, 0)).1
          ((andreaTsCoords m3).getD k' (0, 0)).2) ∧
      (0 ≤ (backend (andreaTsStraight m3)).getD k' 0 →
        andreaTsLabels backend m3 ((andreaTsCoords m3).getD k' (0, 0)).1
            ((andreaTsCoords m3).getD k' (0, 0)).2 =
          some (((backend (andreaTsStraight m3)).getD k' 0 : ℚ))) := by
  have hkc : k < (tsCoords m3).length := by
    rw [← tsStraight_length]; exact hk
  have hkc' : k' < (andreaTsCoords m3).length := by
    rw [← andreaTsStraight_length]; exact hk'
  refine ⟨?_, ?_, ?_, ?_, ?_, ?_⟩
  · rw [timestep_clustering, if_neg (by omega)]
  · rw [tsStraight, List.getD_eq_getElem _ _ (by simpa [tsStraight] using hk),
      List.getElem_map, List.getD_eq_getElem _ _ hkc]
  · intro h0
    rw [tsLabels, scatterLabels_at_coord _ _ _ (Nat.le_of_eq (tsStraight_length m3))
      (tsCoords_nodup m3) k hk, if_pos h0]
  · rw [andrea_timestep_clustering, if_neg (by omega)]
  · rw [andreaTsStraight, List.getD_eq_getElem _ _ (by simpa [andreaTsStraight] using hk'),
      List.getElem_map, List.getD_eq_getElem _ _ hkc']
  · intro h0
    rw [andreaTsLabels, scatterLabels_at_coord _ _ _
      (Nat.le_of_eq (andreaTsStraight_length m3)) (andreaTsCoords_nodup m3) k' hk',
      if_pos h0]

/-- C4 witness: the theorem applied to the concrete inputs `exM4` (at
timestep 0) and `exM3` read as a (lat, lon, chemical) slice, whose single
retained cell (0,0) receives label 0. -/
theorem timestep_labels_spec_witness :
    0 < exM4.T ∧ 0 < (tsStraight exM3).length ∧ 0 < (andreaTsStraight exM3).length ∧
      timestep_clustering exBackendId exM4 0 =
        some (tsLabels exBackendId (exM4.sliceTime 0)) ∧
      tsLabels exBackendId exM3 ((tsCoords exM3).getD 0 (0, 0)).1
          ((tsCoords exM3).getD 0 (0, 0)).2 =
        some (((exBackendId (tsStraight exM3)).getD 0 0 : ℚ)) :=
  ⟨by decide, by decide, by decide,
    (timestep_labels_spec exBackendId exM4 exM3 0 0 0 (by decide) (by decide) (by decide)).1,
    (timestep_labels_spec exBackendId exM4 exM3 0 0 0 (by decide) (by decide)
      (by decide)).2.2.1 (by decide)⟩

/-! ### claim C1 -/

/-- C1 counterexample: on `exM3` (three retained cells with the pairwise
distinct vectors `[0]`, `[1]`, `[2]`) with the identity backend, the claim
"the labels entry at a retained cell's coordinates equals the label the
backend assigned to that cell's feature vector" fails: cell (0,1)'s vector
`[1]` is sample 0 (label 0), but the returned labels array holds 1 at
(0,1), because `straight_data = straight_data[1:]` drops the first sample
while `coordinates` keeps all three cells. -/
theorem single_chemical_shift_counterexample :
    ¬ (∀ k, k < (scCoords exM3).length → ∀ p, p < (scStraight exM3).length →
        (scStraight exM3).getD p [] =
          scCellVec exM3 ((scCoords exM3).getD k (0, 0)).1
            ((scCoords exM3).getD k (0, 0)).2 →
        0 ≤ (exBackendId (scStraight exM3)).getD p 0 →
        scLabels exBackendId exM3 ((scCoords exM3).getD k (0, 0)).1
            ((scCoords exM3).getD k (0, 0)).2 =
          some (((exBackendId (scStraight exM3)).getD p 0 : ℚ))) := by
  decide

/-- C1 amended: `single_chemical_clustering` drops the first retained
cell's vector (`straight_data[1:]`) but not its coordinates, so sample `k`
handed to the backend is the feature vector of the (k+1)-th retained cell,
while its (non-negative) label is written at the coordinates of the k-th
retained cell; the last retained cell's entry is never written and keeps
NaN. -/
theorem single_chemical_shifted_labels (backend : Backend) (m3 : Mat3) (k : Nat)
    (hk : k < (scStraight m3).length) :
    ((scStraight m3).getD k [] =
        scCellVec m3 ((scCoords m3).getD (k + 1) (0, 0)).1
          ((scCoords m3).getD (k + 1) (0, 0)).2) ∧
      (0 ≤ (backend (scStraight m3)).getD k 0 →
        scLabels backend m3 ((scCoords m3).getD k (0, 0)).1
            ((scCoords m3).getD k (0, 0)).2 =
          some (((backend (scStraight m3)).getD k 0 : ℚ))) ∧
      (0 < (scCoords m3).length →
        scLabels backend m3 ((scCoords m3).getD ((scCoords m3).length - 1) (0, 0)).1
          ((scCoords m3).getD ((scCoords m3).length - 1) (0, 0)).2 = none) := by
  have hlen : (scStraight m3).length = (scCoords m3).length - 1 := scStraight_length m3
  have hfull : (scStraightFull m3).length = (scCoords m3).length := by
    simp [scStraightFull]
  have hk1 : k + 1 < (scCoords m3).length := by omega
  have hgetD : ∀ p (hp : p < (scCoords m3).length),
      (scCoords m3).getD p (0, 0) = (scCoords m3).get ⟨p, hp⟩ := by
    intro p hp
    rw [List.getD_eq_getElem _ _ hp, List.get_eq_getElem]
  refine ⟨?_, ?_, ?_⟩
  · rw [scStraight, getD_drop_one _ _ _ (by omega)]
    show ((scCoords m3).map fun p => scCellVec m3 p.1 p.2).getD (k + 1) [] = _
    rw [getD_map_fn _ _ _ _ (0, 0) hk1]
  · intro h0
    rw [scLabels, scatterLabels_at_coord _ _ _ (by omega) (scCoords_nodup m3) k hk,
      if_pos h0]
  · intro hpos
    rw [scLabels]
    apply scatterLabels_not_written
    intro p hp hEq
    have hp' : p < (scCoords m3).length := by omega
    have hlast : (scCoords m3).length - 1 < (scCoords m3).length := by omega
    rw [hgetD p hp', hgetD _ hlast] at hEq
    have h2 : p = (scCoords m3).length - 1 :=
      congrArg Fin.val (((scCoords_nodup m3).get_inj_iff).1 hEq)
    omega

/-- C1 witness: the amended theorem at `exM3` with the identity backend and
k = 0: sample 0 is the vector of the second retained cell (0,1), its label
0 lands at the first retained cell (0,0), and the last retained cell (0,2)
keeps NaN. -/
theorem single_chemical_shifted_labels_witness :
    0 < (scStraight exM3).length ∧
      (scStraight exM3).getD 0 [] =
        scCellVec exM3 ((scCoords exM3).getD 1 (0, 0)).1
          ((scCoords exM3).getD 1 (0, 0)).2 ∧
      scLabels exBackendId exM3 ((scCoords exM3).getD 0 (0, 0)).1
          ((scCoords exM3).getD 0 (0, 0)).2 =
        some (((exBackendId (scStraight exM3)).getD 0 0 : ℚ)) ∧
      scLabels exBackendId exM3 ((scCoords exM3).getD ((scCoords exM3).length - 1) (0, 0)).1
        ((scCoords exM3).getD ((scCoords exM3).length - 1) (0, 0)).2 = none :=
  ⟨by decide,
    (single_chemical_shifted_labels exBackendId exM3 0 (by decide)).1,
    (single_chemical_shifted_labels exBackendId exM3 0 (by decide)).2.1 (by decide),
    (single_chemical_shifted_labels exBackendId exM3 0 (by decide)).2.2 (by decide)⟩

/-! ### claim C6 -/

/-- C6: in `single_chemical_clustering`, `timestep_clustering` and
`timewise_clustering`, every entry of the returned labels array is either
NaN or a non-negative cluster label of the backend; cells excluded by the
missing-data filter keep the NaN placeholder, and a position whose sample
the backend labels negatively (noise) keeps the NaN placeholder. -/
theorem labels_nan_or_cluster_id (backend : Backend) (m3 : Mat3) (m : Mat4)
    (location : Option (Nat × Nat)) (chemicals : List Bool) (x y k p i : Nat) :
    (scLabels backend m3 x y = none ∨
        ∃ q : ℤ, 0 ≤ q ∧ scLabels backend m3 x y = some ((q : ℚ))) ∧
      ((x, y) ∉ scCoords m3 → scLabels backend m3 x y = none) ∧
      (k < (scStraight m3).length → (backend (scStraight m3)).getD k 0 < 0 →
        scLabels backend m3 ((scCoords m3).getD k (0, 0)).1
          ((scCoords m3).getD k (0, 0)).2 = none) ∧
      (tsLabels backend m3 x y = none ∨
        ∃ q : ℤ, 0 ≤ q ∧ tsLabels backend m3 x y = some ((q : ℚ))) ∧
      ((x, y) ∉ tsCoords m3 → tsLabels backend m3 x y = none) ∧
      (p < (tsStraight m3).length → (backend (tsStraight m3)).getD p 0 < 0 →
        tsLabels backend m3 ((tsCoords m3).getD p (0, 0)).1
          ((tsCoords m3).getD p (0, 0)).2 = none) ∧
      (i < (twStraight m location chemicals).length →
        (twLabels backend m location chemicals).getD i none =
          (if 0 ≤ (backend (twStraight m location chemicals)).getD i 0
           then some (((backend (twStraight m location chemicals)).getD i 0 : ℚ))
           else none)) := by
  have hsc : (scStraight m3).length ≤ (scCoords m3).length := by
    rw [scStraight_length]
    exact Nat.sub_le _ _
  have hts : (tsStraight m3).length ≤ (tsCoords m3).length :=
    Nat.le_of_eq (tsStraight_length m3)
  refine ⟨?_, ?_, ?_, ?_, ?_, ?_, ?_⟩
  · rcases scatterLabels_cases (scCoords m3) (backend (scStraight m3))
        (scStraight m3).length x y with h | ⟨q, _, hq0, hq⟩
    · exact Or.inl h
    · exact Or.inr ⟨_, hq0, hq⟩
  · intro hmem
    apply scatterLabels_not_written
    intro q hq hEq
    exact hmem (hEq ▸ getD_mem _ q (0, 0) (Nat.lt_of_lt_of_le hq hsc))
  · intro hk h0
    rw [scLabels, scatterLabels_at_coord _ _ _ hsc (scCoords_nodup m3) k hk,
      if_neg (by omega)]
  · rcases scatterLabels_cases (tsCoords m3) (backend (tsStraight m3))
        (tsStraight m3).length x y with h | ⟨q, _, hq0, hq⟩
    · exact Or.inl h
    · exact Or.inr ⟨_, hq0, hq⟩
  · intro hmem
    apply scatterLabels_not_written
    intro q hq hEq
    exact hmem (hEq ▸ getD_mem _ q (0, 0) (Nat.lt_of_lt_of_le hq hts))
  · intro hp h0
    rw [tsLabels, scatterLabels_at_coord _ _ _ hts (tsCoords_nodup m3) p hp,
      if_neg (by omega)]
  · intro hi
    rw [twLabels, getD_range_map _ _ _ _ hi]

/-- C6 witness: the invariants at the concrete inputs `exM3`, `exM4` with
the identity backend: the cell (1,0) lies outside the grid and keeps NaN,
and the first timewise entry is its (non-negative) label. -/
theorem labels_nan_or_cluster_id_witness :
    (1, 0) ∉ scCoords exM3 ∧ scLabels exBackendId exM3 1 0 = none ∧
      0 < (twStraight exM4 none [true]).length ∧
      (twLabels exBackendId exM4 none [true]).getD 0 none =
        (if 0 ≤ (exBackendId (twStraight exM4 none [true])).getD 0 0
         then some (((exBackendId (twStraight exM4 none [true])).getD 0 0 : ℚ))
         else none) :=
  ⟨by decide,
    (labels_nan_or_cluster_id exBackendId exM3 exM4 none [true] 1 0 0 0 0).2.1 (by decide),
    by decide,
    (labels_nan_or_cluster_id exBackendId exM3 exM4 none [true] 1 0 0 0 0).2.2.2.2.2.2
      (by decide)⟩

/-! ### claim C10 -/

theorem foldl_map_comm {α : Type} (L : List Nat) (f : Nat → α → α) (ls : List α) :
    L.foldl (fun acc i => acc.map (f i)) ls =
      ls.map (fun v => L.foldl (fun v i => f i v) v) := by
  induction L generalizing ls with
  | nil => simp
  | cons a L ih =>
    simp only [List.foldl_cons]
    rw [ih (ls.map (f a)), List.map_map]
    rfl

theorem foldl_clusterStep_untouched (s : List Nat) (L : List Nat) (v : Val)
    (h : ∀ j ∈ L, v ≠ some ((j : ℚ))) :
    L.foldl (fun v j => clusterStep s j v) v = v := by
  induction L with
  | nil => rfl
  | cons a L ih =>
    rw [List.foldl_cons, clusterStep, if_neg (h a (List.mem_cons_self a L))]
    exact ih fun j hj => h j (List.mem_cons_of_mem a hj)

theorem foldl_clusterStep_some (s : List Nat) (i M : Nat)
    (h1 : i < M) (h2 : M ≤ s.length) :
    (List.range M).foldl (fun v j => clusterStep s j v) (some ((i : ℚ))) =
      some (((new_labels s).getD i 0 : ℚ) + (s.length : ℚ)) := by
  induction M with
  | zero => omega
  | succ M ih =>
    rw [List.range_succ, List.foldl_append, List.foldl_cons, List.foldl_nil]
    rcases Nat.lt_or_ge i M with hlt | hge
    · rw [ih hlt (Nat.le_of_succ_le h2)]
      rw [clusterStep, if_neg ?_]
      intro hE
      have hq := Option.some.inj hE
      have hN : (new_labels s).getD i 0 + s.length = M := by exact_mod_cast hq
      omega
    · have hiM : i = M := by omega
      subst hiM
      rw [foldl_clusterStep_untouched s _ _ ?_, clusterStep, if_pos rfl]
      intro j hj hE
      rw [List.mem_range] at hj
      have : i = j := by exact_mod_cast Option.some.inj hE
      omega

theorem sort_clusters_eq_map (labels : List Val) (s : List Nat) :
    sort_clusters labels s = labels.map (fun v =>
      ((List.range s.length).foldl (fun v i => clusterStep s i v) v).map
        (fun q => q - (s.length : ℚ))) := by
  rw [sort_clusters, foldl_map_comm, List.map_map]
  rfl

theorem rank_eq_card (s : List Nat) (i : Nat) :
    rankOfCluster s i = ((Finset.range s.length).filter
      (fun j => s.getD j 0 < s.getD i 0)).card := by
  rw [rankOfCluster]
  simp [Finset.card, Finset.filter, Finset.range, Multiset.range, List.countP_eq_length_filter]

theorem rankOfCluster_lt (s : List Nat) (i : Nat) (hi : i < s.length) :
    rankOfCluster s i < s.length := by
  rw [rank_eq_card]
  calc ((Finset.range s.length).filter (fun j => s.getD j 0 < s.getD i 0)).card
      < (Finset.range s.length).card := by
        apply Finset.card_lt_card
        refine (Finset.ssubset_iff_of_subset (Finset.filter_subset _ _)).2
          ⟨i, Finset.mem_range.2 hi, ?_⟩
        simp
    _ = s.length := Finset.card_range _

theorem rankOfCluster_mono (s : List Nat) (i j : Nat) (hi : i < s.length)
    (hj : j < s.length) (hij : s.getD i 0 < s.getD j 0) :
    rankOfCluster s i < rankOfCluster s j := by
  rw [rank_eq_card, rank_eq_card]
  apply Finset.card_lt_card
  refine (Finset.ssubset_iff_of_subset (Finset.monotone_filter_right _ ?_)).2
    ⟨i, Finset.mem_filter.2 ⟨Finset.mem_range.2 hi, hij⟩, ?_⟩
  · intro x hx
    exact lt_trans hx hij
  · simp

theorem rankOfCluster_inj (s : List Nat)
    (hdist : ∀ a, a < s.length → ∀ b, b < s.length → a ≠ b →
      s.getD a 0 ≠ s.getD b 0)
    (i j : Nat) (hi : i < s.length) (hj : j < s.length)
    (hEq : rankOfCluster s i = rankOfCluster s j) : i = j := by
  by_contra hne
  rcases Nat.lt_or_ge (s.getD i 0) (s.getD j 0) with h | h
  · have := rankOfCluster_mono s i j hi hj h
    omega
  · have hlt : s.getD j 0 < s.getD i 0 :=
      lt_of_le_of_ne h (hdist j hj i hi (Ne.symm hne))
    have := rankOfCluster_mono s j i hj hi hlt
    omega

theorem rankOfCluster_surj (s : List Nat)
    (hdist : ∀ a, a < s.length → ∀ b, b < s.length → a ≠ b →
      s.getD a 0 ≠ s.getD b 0)
    (v : Nat) (hv : v < s.length) :
    ∃ i, i < s.length ∧ rankOfCluster s i = v := by
  have hinj : Set.InjOn (rankOfCluster s) (Finset.range s.length) := by
    intro a ha b hb hEq
    exact rankOfCluster_inj s hdist a b
      (Finset.mem_range.1 (Finset.mem_coe.1 ha))
      (Finset.mem_range.1 (Finset.mem_coe.1 hb)) hEq
  have himg : (Finset.range s.length).image (rankOfCluster s) =
      Finset.range s.length := by
    apply Finset.eq_of_subset_of_card_le
    · intro x hx
      obtain ⟨a, ha, rfl⟩ := Finset.mem_image.1 hx
      exact Finset.mem_range.2 (rankOfCluster_lt s a (Finset.mem_range.1 ha))
    · rw [Finset.card_image_of_injOn hinj]
  have hv2 : v ∈ (Finset.range s.length).image (rankOfCluster s) := by
    rw [himg]
    exact Finset.mem_range.2 hv
  obtain ⟨i, hi, hEq⟩ := Finset.mem_image.1 hv2
  exact ⟨i, Finset.mem_range.1 hi, hEq⟩

/-- C10: `sort_clusters` replaces each label `i` in {0..n-1} by the number
of clusters whose size is strictly smaller than `cluster_sizes[i]`; when
the sizes are pairwise distinct this size-rank is a bijection of {0..n-1},
and it is strictly monotone in cluster size; NaN entries are returned
unchanged. -/
theorem sort_clusters_spec (labels : List Val) (cluster_sizes : List Nat)
    (hdist : ∀ a, a < cluster_sizes.length → ∀ b, b < cluster_sizes.length → a ≠ b →
      cluster_sizes.getD a 0 ≠ cluster_sizes.getD b 0) :
    (∀ k : Nat, labels[k]? = some none →
        (sort_clusters labels cluster_sizes)[k]? = some none) ∧
      (∀ k i : Nat, i < cluster_sizes.length → labels[k]? = some (some ((i : ℚ))) →
        (sort_clusters labels cluster_sizes)[k]? =
          some (some ((rankOfCluster cluster_sizes i : ℚ)))) ∧
      (∀ i, i < cluster_sizes.length →
        rankOfCluster cluster_sizes i < cluster_sizes.length) ∧
      (∀ i j, i < cluster_sizes.length → j < cluster_sizes.length →
        rankOfCluster cluster_sizes i = rankOfCluster cluster_sizes j → i = j) ∧
      (∀ v, v < cluster_sizes.length →
        ∃ i, i < cluster_sizes.length ∧ rankOfCluster cluster_sizes i = v) ∧
      (∀ i j, i < cluster_sizes.length → j < cluster_sizes.length →
        cluster_sizes.getD i 0 < cluster_sizes.getD j 0 →
        rankOfCluster cluster_sizes i < rankOfCluster cluster_sizes j) := by
  refine ⟨?_, ?_, fun i hi => rankOfCluster_lt _ i hi,
    fun i j hi hj => rankOfCluster_inj _ hdist i j hi hj,
    fun v hv => rankOfCluster_surj _ hdist v hv,
    fun i j hi hj h => rankOfCluster_mono _ i j hi hj h⟩
  · intro k hk
    rw [sort_clusters_eq_map, List.getElem?_map _ _ k, hk]
    have hfold : (List.range cluster_sizes.length).foldl
        (fun v i => clusterStep cluster_sizes i v) none = none := by
      apply foldl_clusterStep_untouched
      intro j hj
      exact fun hE => Option.noConfusion hE
    simp [hfold]
  · intro k i hi hk
    have hmap : ∀ F : Val → Val, (labels.map F)[k]? = (labels[k]?).map F :=
      fun F => List.getElem?_map F labels k
    rw [sort_clusters_eq_map, hmap, hk]
    have hnl : ((new_labels cluster_sizes).getD i 0 : ℚ) =
        (rankOfCluster cluster_sizes i : ℚ) := by
      rw [new_labels, getD_range_map _ _ _ _ hi]
    rw [Option.map_some']
    rw [foldl_clusterStep_some cluster_sizes i cluster_sizes.length hi (Nat.le_refl _)]
    rw [Option.map_some']
    congr 1
    rw [hnl]
    ring_nf

/-- C10 witness: sizes [5, 2] (rank 1 and 0 respectively) on the labels
list `[0, NaN, 1]`: label 0 becomes its rank 1 and the NaN entry is
unchanged. -/
theorem sort_clusters_spec_witness :
    (∀ a, a < ([5, 2] : List Nat).length → ∀ b, b < ([5, 2] : List Nat).length →
        a ≠ b → ([5, 2] : List Nat).getD a 0 ≠ ([5, 2] : List Nat).getD b 0) ∧
      ([some 0, none, some 1] : List Val)[0]? = some (some ((0 : ℚ))) ∧
      (sort_clusters [some 0, none, some 1] [5, 2])[0]? =
        some (some ((rankOfCluster [5, 2] 0 : ℚ))) ∧
      (sort_clusters [some 0, none, some 1] [5, 2])[1]? = some none :=
  ⟨by decide, by decide,
    (sort_clusters_spec [some 0, none, some 1] [5, 2] (by decide)).2.1 0 0
      (by decide) (by decide),
    (sort_clusters_spec [some 0, none, some 1] [5, 2] (by decide)).1 1 (by decide)⟩

end Water
